import Mathlib

/-!
Verification of the cache-consistency layer and rate limiter of the
gin-app-start repository.

Part 1: the token-bucket rate limiter
(src/unnamed/part_003, `package middleware`, type `rateLimiter`).

Modelling conventions:
* Go `time.Time` is modelled as a `Nat` of nanoseconds since some epoch.
  The process clock is monotone, so `now.Sub(lastTime)` is never negative
  and truncated `Nat` subtraction agrees with the Go computation.
* `elapsed := now.Sub(lastTime).Seconds()` (a float of seconds) followed by
  `int(elapsed * float64(rl.rate))` is modelled exactly as
  `elapsedNs * rate / 1000000000` with `Nat` (floor) division, which is the
  real-number value the float code approximates; Go float->int conversion
  truncates toward zero, which is floor on this nonnegative domain.
* The field `rate` is a Go `int`, but the limiter is only ever constructed
  through `RateLimit`, which the router installs only when
  `cfg.Server.LimitNum > 0` (router.go:183), so it is modelled as `Nat`;
  token counts stay `Int` so that the `rate - 1` initialization is exact
  even in the degenerate `rate = 0` configuration.
* Go map reads return the zero value for missing keys; the `tokens` map is
  therefore a total function defaulting to 0, and `lastAccess` (whose
  presence is what the code tests with `exists`) is an optional map.
-/

/-- Functional update of a total map, modelling a Go map write. -/
def mapSet {α : Type} (m : String → α) (key : String) (v : α) : String → α :=
  fun k => if k = key then v else m k

/-- State of the middleware `rateLimiter` struct: configured rate plus the
`lastAccess` and `tokens` maps (part_003 lines 11-16). -/
structure RateLimiter where
  rate : Nat
  lastAccess : String → Option Nat
  tokens : String → Int

/-- `newRateLimiter` (part_003 lines 19-29): empty maps. -/
def newRateLimiter (rate : Nat) : RateLimiter :=
  { rate := rate, lastAccess := fun _ => none, tokens := fun _ => 0 }

/-- `tokensToAdd` of part_003 line 52: `int(elapsed * float64(rl.rate))`,
i.e. the floor of elapsed-seconds times the configured rate. -/
def tokensToAdd (rl : RateLimiter) (now lastTime : Nat) : Nat :=
  (now - lastTime) * rl.rate / 1000000000

/-- The refill step of `allow` (part_003 lines 47-60): compute
`tokensToAdd = floor(elapsedSeconds * rate)`; when positive, add it capped
at `rate` and advance `lastAccess` to `now`; otherwise change nothing. -/
def refill (rl : RateLimiter) (now : Nat) (key : String) (lastTime : Nat) :
    RateLimiter :=
  if 0 < tokensToAdd rl now lastTime then
    let t : Int := rl.tokens key + (tokensToAdd rl now lastTime : Int)
    let t := if (rl.rate : Int) < t then (rl.rate : Int) else t
    { rl with
      tokens := mapSet rl.tokens key t,
      lastAccess := mapSet rl.lastAccess key (some now) }
  else
    rl

/-- `allow` (part_003 lines 33-68).  First observation of a key initializes
`tokens = rate - 1` and admits; otherwise refill lazily, then spend a token
if one is available. -/
def allow (rl : RateLimiter) (now : Nat) (key : String) : Bool × RateLimiter :=
  match rl.lastAccess key with
  | none =>
    (true,
      { rl with
        lastAccess := mapSet rl.lastAccess key (some now),
        tokens := mapSet rl.tokens key ((rl.rate : Int) - 1) })
  | some lastTime =>
    let rl2 := refill rl now key lastTime
    if 0 < rl2.tokens key then
      (true,
        { rl2 with tokens := mapSet rl2.tokens key (rl2.tokens key - 1) })
    else
      (false, rl2)

/-- Run a sequence of `allow` calls, each given as `(now, key)`. -/
def runCalls (rl : RateLimiter) : List (Nat × String) → RateLimiter
  | [] => rl
  | c :: cs => runCalls (allow rl c.1 c.2).2 cs

/-- `n` consecutive `allow` calls at one instant for one key: the list of
results together with the final limiter state. -/
def allowRepeat (rl : RateLimiter) (now : Nat) (key : String) :
    Nat → List Bool × RateLimiter
  | 0 => ([], rl)
  | n + 1 =>
    let r := allow rl now key
    let rest := allowRepeat r.2 now key n
    (r.1 :: rest.1, rest.2)

/-- The spec invariant for bucket token counts. -/
def TokensInRange (rl : RateLimiter) : Prop :=
  ∀ k, 0 ≤ rl.tokens k ∧ rl.tokens k ≤ (rl.rate : Int)

theorem refill_rate (rl : RateLimiter) (now key lastTime) :
    (refill rl now key lastTime).rate = rl.rate := by
  unfold refill
  split <;> rfl

theorem allow_rate (rl : RateLimiter) (now : Nat) (key : String) :
    (allow rl now key).2.rate = rl.rate := by
  unfold allow
  cases h : rl.lastAccess key with
  | none => rfl
  | some lastTime =>
    simp only
    split <;> simp [refill_rate]

theorem refill_tokens_range (rl : RateLimiter) (now key lastTime)
    (h : TokensInRange rl) : TokensInRange (refill rl now key lastTime) := by
  unfold refill
  split
  · intro k
    simp only [mapSet]
    split
    · have hk := h key
      constructor
      · split <;> omega
      · split <;> omega
    · exact h k
  · exact h

theorem allow_tokens_range (rl : RateLimiter) (now : Nat) (key : String)
    (hrate : 1 ≤ rl.rate) (h : TokensInRange rl) :
    TokensInRange (allow rl now key).2 := by
  unfold allow
  cases hla : rl.lastAccess key with
  | none =>
    intro k
    simp only [mapSet]
    split
    · constructor <;> omega
    · exact h k
  | some lastTime =>
    simp only
    have h2 := refill_tokens_range rl now key lastTime h
    split
    · intro k
      simp only [mapSet]
      split
      · rename_i hpos _
        have hk := h2 key
        have hr := refill_rate rl now key lastTime
        constructor <;> omega
      · exact h2 k
    · exact h2

theorem runCalls_tokens_range (calls : List (Nat × String)) :
    ∀ (rl : RateLimiter), 1 ≤ rl.rate → TokensInRange rl →
      TokensInRange (runCalls rl calls) ∧ (runCalls rl calls).rate = rl.rate := by
  induction calls with
  | nil => intro rl _ h; exact ⟨h, rfl⟩
  | cons c cs ih =>
    intro rl hrate h
    have hr := allow_rate rl c.1 c.2
    have step := allow_tokens_range rl c.1 c.2 hrate h
    have := ih (allow rl c.1 c.2).2 (by omega) step
    exact ⟨this.1, by rw [runCalls]; omega⟩

/-- C4: starting from a freshly constructed limiter with positive configured
rate (the router installs the middleware only when `LimitNum > 0`,
router.go:183), after any sequence of `allow` calls every key's token count
satisfies `0 ≤ tokens ≤ capacity`; the invariant is preserved through
initialization, refill and decrement, all of which happen inside `allow`. -/
theorem rateLimiter_tokens_in_range (rate : Nat) (hrate : 1 ≤ rate)
    (calls : List (Nat × String)) (k : String) :
    0 ≤ (runCalls (newRateLimiter rate) calls).tokens k ∧
      (runCalls (newRateLimiter rate) calls).tokens k ≤ (rate : Int) := by
  have hinit : TokensInRange (newRateLimiter rate) := by
    intro k0
    simp only [newRateLimiter]
    omega
  have := runCalls_tokens_range calls (newRateLimiter rate) hrate hinit
  have hk := this.1 k
  have hr : (runCalls (newRateLimiter rate) calls).rate = rate := this.2
  rw [hr] at hk
  exact hk

/-- C4 witness: concrete instantiation at rate 5 with a two-call trace. -/
theorem rateLimiter_tokens_in_range_witness :
    0 ≤ (runCalls (newRateLimiter 5) [(0, "A"), (0, "A")]).tokens "A" ∧
      (runCalls (newRateLimiter 5) [(0, "A"), (0, "A")]).tokens "A" ≤ (5 : Int) :=
  rateLimiter_tokens_in_range 5 (by decide) [(0, "A"), (0, "A")] "A"

/-- C7: the first `allow` call for an untracked key returns `true`, records
`lastAccess = now` and leaves the bucket holding exactly `capacity - 1`
tokens (part_003 lines 41-45). -/
theorem allow_fresh_key (rl : RateLimiter) (now : Nat) (key : String)
    (h : rl.lastAccess key = none) :
    (allow rl now key).1 = true ∧
      (allow rl now key).2.lastAccess key = some now ∧
      (allow rl now key).2.tokens key = (rl.rate : Int) - 1 := by
  simp [allow, h, mapSet]

/-- C7 witness: fresh key "A" on a rate-5 limiter. -/
theorem allow_fresh_key_witness :
    (allow (newRateLimiter 5) 0 "A").1 = true ∧
      (allow (newRateLimiter 5) 0 "A").2.lastAccess "A" = some 0 ∧
      (allow (newRateLimiter 5) 0 "A").2.tokens "A" = ((5 : Nat) : Int) - 1 :=
  allow_fresh_key (newRateLimiter 5) 0 "A" rfl

theorem tokensToAdd_same_instant (rl : RateLimiter) (now : Nat) :
    tokensToAdd rl now now = 0 := by
  simp [tokensToAdd]

theorem refill_same_instant (rl : RateLimiter) (now : Nat) (key : String) :
    refill rl now key now = rl := by
  simp [refill, tokensToAdd_same_instant]

theorem allow_same_instant (rl : RateLimiter) (now : Nat) (key : String)
    (h : rl.lastAccess key = some now) :
    allow rl now key =
      if 0 < rl.tokens key then
        (true, { rl with tokens := mapSet rl.tokens key (rl.tokens key - 1) })
      else
        (false, rl) := by
  simp only [allow, h, refill_same_instant]

theorem allow_reject (rl : RateLimiter) (now : Nat) (key : String)
    (h : rl.lastAccess key = some now) (h0 : rl.tokens key ≤ 0) :
    allow rl now key = (false, rl) := by
  rw [allow_same_instant rl now key h, if_neg (by omega)]

theorem allowRepeat_drain (key : String) (now : Nat) :
    ∀ (j : Nat) (rl : RateLimiter),
      rl.lastAccess key = some now → (j : Int) ≤ rl.tokens key →
      (allowRepeat rl now key j).1 = List.replicate j true ∧
        (allowRepeat rl now key j).2.tokens key = rl.tokens key - j ∧
        (allowRepeat rl now key j).2.lastAccess key = some now := by
  intro j
  induction j with
  | zero =>
    intro rl h _
    refine ⟨rfl, by simp [allowRepeat], h⟩
  | succ m ih =>
    intro rl h hj
    have hpos : 0 < rl.tokens key := by
      have : ((m : Int) + 1) ≤ rl.tokens key := by push_cast at hj; omega
      omega
    have hstep := allow_same_instant rl now key h
    rw [if_pos hpos] at hstep
    have h1la :
        ({ rl with tokens := mapSet rl.tokens key (rl.tokens key - 1) }
          : RateLimiter).lastAccess key = some now := h
    have h1tok :
        ({ rl with tokens := mapSet rl.tokens key (rl.tokens key - 1) }
          : RateLimiter).tokens key = rl.tokens key - 1 := by
      simp [mapSet]
    have hrec := ih _ h1la (by rw [h1tok]; push_cast at hj ⊢; omega)
    rw [allowRepeat, hstep]
    refine ⟨?_, ?_, hrec.2.2⟩
    · simp only [List.replicate_succ, hrec.1]
    · rw [hrec.2.1, h1tok]
      push_cast
      omega

theorem allowRepeat_add (a b : Nat) :
    ∀ (rl : RateLimiter) (now : Nat) (key : String),
      (allowRepeat rl now key (a + b)).1 =
          (allowRepeat rl now key a).1 ++
            (allowRepeat (allowRepeat rl now key a).2 now key b).1 ∧
        (allowRepeat rl now key (a + b)).2 =
          (allowRepeat (allowRepeat rl now key a).2 now key b).2 := by
  induction a with
  | zero =>
    intro rl now key
    simp [allowRepeat]
  | succ m ih =>
    intro rl now key
    have hshape : m + 1 + b = (m + b) + 1 := by omega
    rw [hshape, allowRepeat, allowRepeat]
    have := ih (allow rl now key).2 now key
    simp only [this.1, this.2, allowRepeat, List.cons_append]
    exact ⟨trivial, trivial⟩

theorem allowRepeat_drain_reject (key : String) (now : Nat) (m : Nat)
    (rl : RateLimiter) (h : rl.lastAccess key = some now)
    (htok : rl.tokens key = (m : Int)) :
    (allowRepeat rl now key (m + 1)).1 = List.replicate m true ++ [false] := by
  have hd := allowRepeat_drain key now m rl h (by omega)
  have hzero : (allowRepeat rl now key m).2.tokens key = 0 := by
    rw [hd.2.1, htok]; omega
  have hadd := allowRepeat_add m 1 rl now key
  rw [hadd.1, hd.1]
  have hrej := allow_reject (allowRepeat rl now key m).2 now key hd.2.2 (by omega)
  rw [allowRepeat, hrej]
  rfl

/-- C5: on a limiter of rate `c ≥ 1`, a fresh key admits `n ≤ c`
instantaneous calls (all `true`), and in a run of `c + 1` instantaneous
calls the first `c` are admitted and the `(c+1)`th rejected; at `c = 5`
this is exactly the 5-calls-true, 6th-false scenario. -/
theorem allow_burst (c : Nat) (hc : 1 ≤ c) (now : Nat) (key : String)
    (n : Nat) (hn : n ≤ c) :
    (allowRepeat (newRateLimiter c) now key n).1 = List.replicate n true ∧
      (allowRepeat (newRateLimiter c) now key (c + 1)).1 =
        List.replicate c true ++ [false] := by
  have hfresh : (newRateLimiter c).lastAccess key = none := rfl
  have hf := allow_fresh_key (newRateLimiter c) now key hfresh
  have h1la : (allow (newRateLimiter c) now key).2.lastAccess key = some now :=
    hf.2.1
  have h1tok : (allow (newRateLimiter c) now key).2.tokens key = (c : Int) - 1 := by
    have := hf.2.2
    simpa [newRateLimiter] using this
  have hsub : c - 1 + 1 = c := by omega
  constructor
  · cases n with
    | zero => simp [allowRepeat]
    | succ m =>
      rw [allowRepeat]
      have hd := allowRepeat_drain key now m (allow (newRateLimiter c) now key).2
        h1la (by rw [h1tok]; omega)
      simp [hf.1, hd.1, List.replicate_succ]
  · rw [allowRepeat]
    have hdr := allowRepeat_drain_reject key now (c - 1)
      (allow (newRateLimiter c) now key).2 h1la
      (by rw [h1tok]; omega)
    rw [hsub] at hdr
    have hrep : List.replicate c true = true :: List.replicate (c - 1) true := by
      cases c with
      | zero => omega
      | succ k => simp [List.replicate_succ]
    simp [hf.1, hdr, hrep]

/-- C5 witness: rate 5, key "A", all calls in the same instant. -/
theorem allow_burst_witness :
    (allowRepeat (newRateLimiter 5) 0 "A" 5).1 = List.replicate 5 true ∧
      (allowRepeat (newRateLimiter 5) 0 "A" (5 + 1)).1 =
        List.replicate 5 true ++ [false] :=
  allow_burst 5 (by decide) 0 "A" 5 (by decide)

theorem refill_tokens_pos (rl : RateLimiter) (now lastTime : Nat) (key : String)
    (hpos : 0 < tokensToAdd rl now lastTime) :
    (refill rl now key lastTime).tokens key =
        min (rl.tokens key + (tokensToAdd rl now lastTime : Int)) (rl.rate : Int) ∧
      (refill rl now key lastTime).lastAccess key = some now := by
  rw [refill, if_pos hpos]
  refine ⟨?_, ?_⟩
  · simp only [mapSet, if_true]
    rcases lt_or_le ((rl.rate : Int))
        (rl.tokens key + (tokensToAdd rl now lastTime : Int)) with hcmp | hcmp
    · rw [if_pos hcmp, min_eq_right (by omega)]
    · rw [if_neg (by omega), min_eq_left (by omega)]
  · simp only [mapSet, if_true]

/-- C6: on an `allow` call for an already-tracked key, the refill adds
`floor(elapsedSeconds * capacity)` tokens only when that quantity is
positive, caps the result at capacity, and advances the recorded last-access
time only in that case; consequently a drained bucket whose elapsed credit
reaches the capacity is refilled to exactly the capacity, never more. -/
theorem allow_refill_caps (rl : RateLimiter) (now lastTime : Nat) (key : String)
    (hla : rl.lastAccess key = some lastTime) :
    (tokensToAdd rl now lastTime = 0 →
        refill rl now key lastTime = rl ∧
          (allow rl now key).2.lastAccess key = some lastTime) ∧
      (0 < tokensToAdd rl now lastTime →
        (refill rl now key lastTime).tokens key =
            min (rl.tokens key + (tokensToAdd rl now lastTime : Int))
              (rl.rate : Int) ∧
          (refill rl now key lastTime).lastAccess key = some now ∧
          (allow rl now key).2.lastAccess key = some now) ∧
      (rl.tokens key = 0 → rl.rate ≤ tokensToAdd rl now lastTime →
        (refill rl now key lastTime).tokens key = (rl.rate : Int)) := by
  refine ⟨?_, ?_, ?_⟩
  · intro h0
    have hre : refill rl now key lastTime = rl := by
      simp [refill, h0]
    refine ⟨hre, ?_⟩
    simp only [allow, hla, hre]
    split <;> exact hla
  · intro hpos
    have hre := refill_tokens_pos rl now lastTime key hpos
    refine ⟨hre.1, hre.2, ?_⟩
    simp only [allow, hla]
    split
    · exact hre.2
    · exact hre.2
  · intro hz hcap
    rcases Nat.eq_zero_or_pos (tokensToAdd rl now lastTime) with h0 | hpos
    · have hr0 : rl.rate = 0 := by omega
      simp [refill, h0, hz, hr0]
    · have hre := refill_tokens_pos rl now lastTime key hpos
      rw [hre.1, hz]
      have hle : (rl.rate : Int) ≤ 0 + (tokensToAdd rl now lastTime : Int) := by
        omega
      rw [min_eq_right hle]

/-- A rate-5 bucket for key "A" holding 4 tokens (one call consumed). -/
def rlFull : RateLimiter := (allow (newRateLimiter 5) 0 "A").2

/-- A rate-5 bucket for key "A" fully drained. -/
def rlDrained : RateLimiter :=
  { rate := 5, lastAccess := mapSet (fun _ => none) "A" (some 0),
    tokens := fun _ => 0 }

/-- C6 witness: with no elapsed credit the refill is a no-op and the
last-access time stays put; 2 seconds later (credit 10) the refill caps and
advances it; for the drained bucket the refill lands exactly on capacity. -/
theorem allow_refill_caps_witness :
    (refill rlDrained 0 "A" 0 = rlDrained ∧
      (allow rlDrained 0 "A").2.lastAccess "A" = some 0) ∧
      ((refill rlFull 2000000000 "A" 0).tokens "A" =
          min (rlFull.tokens "A" + (tokensToAdd rlFull 2000000000 0 : Int))
            (rlFull.rate : Int) ∧
        (refill rlFull 2000000000 "A" 0).lastAccess "A" = some 2000000000 ∧
        (allow rlFull 2000000000 "A").2.lastAccess "A" = some 2000000000) ∧
      (refill rlDrained 2000000000 "A" 0).tokens "A" = (rlDrained.rate : Int) :=
  ⟨(allow_refill_caps rlDrained 0 0 "A" (by decide)).1 (by decide),
    (allow_refill_caps rlFull 2000000000 0 "A" (by decide)).2.1 (by decide),
    (allow_refill_caps rlDrained 2000000000 0 "A" (by decide)).2.2 rfl
      (by decide)⟩

/-!
Part 2: the order cache-consistency service
(src/internal/service/order_service.go, consuming the redis wrapper of
src/unnamed/part_009 and the order repository of
src/internal/repository/order_repository.go).

Modelling conventions:
* The redis keyspace is one association list from string keys to values;
  a value is either a plain string with its TTL (written by SetWithExpire)
  or an order-list hash with fields orders/total and a TTL (written by
  HashSet).  TTL expiry itself is not modelled: every claim concerns
  behavior within the TTL window, where entries simply persist.
* The only plain strings the service ever stores at `order:` keys are the
  empty tombstone and `json.MarshalIndent` of an order; that rendering is
  injective, non-empty, and inverted by `json.Unmarshal`, so the string
  codomain is modelled as `CacheStr` (tombstone or an order).  Likewise the
  hash fields `orders`/`total` round-trip through MarshalIndent/Unmarshal
  and FormatInt/ParseInt, so they are modelled by the list and the count.
* The collaborators (gorm repository, redis client) are fallible; each
  failure mode the code branches on is injected through a per-operation
  boolean in `World` (a world where that operation fails).  `marshalFails`
  models the error branch after json.MarshalIndent (which cannot actually
  fail on these types, but the code checks it).
* `model.Order.TotalPrice` is a float64 that the service only copies and
  compares with 0; it is modelled as `Int`.
* `repoGetCount` and `repoListCalls` are instrumentation recording backing
  store queries; they influence no behavior.
-/

/-- model.Order (declared next to recovery.go:228), restricted to the fields
the order service reads or writes, plus the `username` column the service
populates and the repository filters on. -/
structure Order where
  id : Nat
  orderNumber : String
  username : String
  userId : Nat
  totalPrice : Int
  description : String
  status : Int
deriving DecidableEq

/-- A plain string stored at an `order:` key: the empty anti-penetration
tombstone, or the JSON rendering of an order. -/
inductive CacheStr where
  | tomb
  | jsonOf (o : Order)
deriving DecidableEq

/-- A redis value: plain string with TTL (ns), or the order-list hash
written atomically by HashSet with fields orders and total. -/
inductive RVal where
  | str (s : CacheStr) (ttlNs : Nat)
  | hash (orders : List Order) (total : Int) (ttlNs : Nat)
deriving DecidableEq

/-- Redis string lookup on the keyspace association list. -/
def storeGet : List (String × RVal) → String → Option RVal
  | [], _ => none
  | e :: st, k => if e.1 = k then some e.2 else storeGet st k

/-- Overwrite-or-insert, modelling SET/HSET on a key. -/
def storeSet (st : List (String × RVal)) (k : String) (v : RVal) :
    List (String × RVal) :=
  match st with
  | [] => [(k, v)]
  | e :: st => if e.1 = k then (k, v) :: st else e :: storeSet st k v

/-- DEL on a key. -/
def storeDel : List (String × RVal) → String → List (String × RVal)
  | [], _ => []
  | e :: st, k => if e.1 = k then storeDel st k else e :: storeDel st k

/-- The glob `order_list:*` passed to KEYS matches exactly the keys with
this prefix. -/
def matchesOrderListPattern (k : String) : Bool :=
  "order_list:".data.isPrefixOf k.data

/-- KEYS "order_list:*": every stored key matching the pattern. -/
def storeKeysMatching : List (String × RVal) → List String
  | [] => []
  | e :: st =>
    if matchesOrderListPattern e.1 then e.1 :: storeKeysMatching st
    else storeKeysMatching st

/-- The relational store: the orders table plus the next auto-assigned id. -/
structure Db where
  orders : List Order
  nextId : Nat
deriving DecidableEq

/-- Fault-injection flags, one per fallible collaborator call. -/
structure Faults where
  createFails : Bool
  updateFails : Bool
  deleteFails : Bool
  getFails : Bool
  listFails : Bool
  kvSetFails : Bool
  kvDeleteFails : Bool
  hashSetFails : Bool
  scanFails : Bool
  marshalFails : Bool
deriving DecidableEq

/-- A world: database, redis keyspace, fault-injection flags, and
instrumentation counters. -/
structure World where
  db : Db
  cache : List (String × RVal)
  faults : Faults
  repoGetCount : Nat
  repoListCalls : List (String × Int × Int)
deriving DecidableEq

/-- The pkg/errors business errors returned by the order service. -/
inductive BErr where
  | orderFailed
  | orderExists
  | orderCreateFailed
  | orderNotFound
  | orderUpdateFailed
  | orderDeleteFailed
  | orderListFailed
  | orderMarshalFailed
  | orderCacheFailed
  | emptyCache
  | orderCacheDeleteFailed
  | redisScanKeysFailed
  | orderListCacheDeleteFailed
deriving DecidableEq

/-- gorm errors as seen by the service: record-not-found or anything else. -/
inductive RepoErr where
  | notFound
  | failure
deriving DecidableEq

def findOrder : List Order → String → Option Order
  | [], _ => none
  | o :: os, n => if o.orderNumber = n then some o else findOrder os n

def findOrderById : List Order → Nat → Option Order
  | [], _ => none
  | o :: os, i => if o.id = i then some o else findOrderById os i

/-- orderRepo.GetOrderByOrderNumber: one backing-store query (counted). -/
def repoGetOrderByOrderNumber (w : World) (n : String) :
    Except RepoErr Order × World :=
  let w := { w with repoGetCount := w.repoGetCount + 1 }
  if w.faults.getFails then (.error .failure, w)
  else
    match findOrder w.db.orders n with
    | some o => (.ok o, w)
    | none => (.error .notFound, w)

/-- orderRepo.GetByID. -/
def repoGetByID (w : World) (i : Nat) : Except RepoErr Order × World :=
  if w.faults.getFails then (.error .failure, w)
  else
    match findOrderById w.db.orders i with
    | some o => (.ok o, w)
    | none => (.error .notFound, w)

/-- orderRepo.Create: inserts the row and assigns the next id. -/
def repoCreate (w : World) (o : Order) : Except RepoErr Order × World :=
  if w.faults.createFails then (.error .failure, w)
  else
    let o2 := { o with id := w.db.nextId }
    (.ok o2,
      { w with db := { orders := w.db.orders ++ [o2], nextId := w.db.nextId + 1 } })

def replaceOrder : List Order → Order → List Order
  | [], _ => []
  | o :: os, u => if o.id = u.id then u :: os else o :: replaceOrder os u

/-- orderRepo.Update. -/
def repoUpdate (w : World) (o : Order) : Option RepoErr × World :=
  if w.faults.updateFails then (some .failure, w)
  else (none, { w with db := { w.db with orders := replaceOrder w.db.orders o } })

def removeOrderById : List Order → Nat → List Order
  | [], _ => []
  | o :: os, i => if o.id = i then removeOrderById os i else o :: removeOrderById os i

/-- orderRepo.Delete. -/
def repoDelete (w : World) (i : Nat) : Option RepoErr × World :=
  if w.faults.deleteFails then (some .failure, w)
  else (none, { w with db := { w.db with orders := removeOrderById w.db.orders i } })

/-- orderRepo.List (order_repository.go): admin sees all rows, others their
own; the returned total is the length of the returned page (the source
computes `total := int64(len(orders))`).  The call is recorded with its
offset and limit arguments. -/
def repoList (w : World) (username : String) (offset limit : Int) :
    Except RepoErr (List Order × Int) × World :=
  let w := { w with repoListCalls := w.repoListCalls ++ [(username, offset, limit)] }
  if w.faults.listFails then (.error .failure, w)
  else
    let base :=
      if username = "admin" then w.db.orders
      else w.db.orders.filter (fun o => o.username == username)
    let page := (base.drop offset.toNat).take limit.toNat
    (.ok (page, (page.length : Int)), w)

/-- redis Get (part_009:106-115): a missing key is an error (redis.Nil); a
hash at the key is a WRONGTYPE error; both surface to the service as a
non-nil error, which it treats as a miss. -/
def redisGet (w : World) (k : String) : Option CacheStr :=
  match storeGet w.cache k with
  | some (.str s _) => some s
  | some (.hash _ _ _) => none
  | none => none

/-- redis SetWithExpire (part_009:139-146); the Bool is success. -/
def redisSetWithExpire (w : World) (k : String) (v : CacheStr) (ttlNs : Nat) :
    Bool × World :=
  if w.faults.kvSetFails then (false, w)
  else (true, { w with cache := storeSet w.cache k (.str v ttlNs) })

/-- redis Delete (part_009:118-125); the Bool is success. -/
def redisDelete (w : World) (k : String) : Bool × World :=
  if w.faults.kvDeleteFails then (false, w)
  else (true, { w with cache := storeDel w.cache k })

/-- redis HashSet (part_009:390-401): HSET of both fields plus EXPIRE in one
transaction; the Bool is success. -/
def redisHashSet (w : World) (k : String) (orders : List Order) (total : Int)
    (ttlNs : Nat) : Bool × World :=
  if w.faults.hashSetFails then (false, w)
  else (true, { w with cache := storeSet w.cache k (.hash orders total ttlNs) })

/-- The two HashGet reads of ListOrders (order_service.go 324-325): both
fields are present exactly when the hash entry exists (they are written
atomically); their HGet errors are discarded by the caller, leaving empty
strings, i.e. a miss. -/
def redisHashPair (w : World) (k : String) : Option (List Order × Int) :=
  match storeGet w.cache k with
  | some (.hash orders total _) => some (orders, total)
  | some (.str _ _) => none
  | none => none

/-- 30*time.Minute in nanoseconds: the TTL used for order entries, tombstone
entries, and (despite the 5-minute comment) the list cache. -/
def orderTTL : Nat := 1800000000000

/-- Decimal digits of a natural number, least significant first, as printed
by the %d verb of fmt.Sprintf; fuel-structured so the kernel can evaluate
it (any fuel above the number itself suffices). -/
def natDigitsAux : Nat → Nat → List Char
  | 0, _ => []
  | fuel + 1, n =>
    if n < 10 then [Nat.digitChar n]
    else Nat.digitChar (n % 10) :: natDigitsAux fuel (n / 10)

def natDigits (n : Nat) : List Char := natDigitsAux (n + 1) n

def formatNat (n : Nat) : String := ⟨(natDigits n).reverse⟩

/-- fmt.Sprintf %d of a Go int. -/
def formatInt (i : Int) : String :=
  if i < 0 then "-" ++ formatNat i.natAbs else formatNat i.toNat

/-- getOrderCacheKey (order_service.go 47-49). -/
def getOrderCacheKey (orderNumber : String) : String :=
  "order:" ++ orderNumber

/-- getOrderListCacheKey (order_service.go 51-53). -/
def getOrderListCacheKey (username : String) (page pageSize : Int) : String :=
  "order_list:" ++ username ++ ":" ++ formatInt page ++ ":" ++ formatInt pageSize

/-- saveOrderInCache (order_service.go 55-70). -/
def saveOrderInCache (w : World) (o : Order) (ttlNs : Nat) :
    Option BErr × World :=
  if w.faults.marshalFails then (some .orderMarshalFailed, w)
  else
    let r := redisSetWithExpire w (getOrderCacheKey o.orderNumber) (.jsonOf o) ttlNs
    if r.1 then (none, r.2) else (some .orderCacheFailed, r.2)

/-- saveOrderListInCache (order_service.go 73-93).  The HashSet return value
is discarded by the source (line 82); the `if err != nil` on line 86
re-tests the marshal error, which is necessarily nil at that point, so the
ErrOrderCacheFailed branch is dead code. -/
def saveOrderListInCache (w : World) (orders : List Order) (total : Int)
    (username : String) (page pageSize : Int) (ttlNs : Nat) :
    Option BErr × World :=
  if w.faults.marshalFails then (some .orderMarshalFailed, w)
  else
    let cacheKey := getOrderListCacheKey username page pageSize
    let w := (redisHashSet w cacheKey orders total ttlNs).2
    let staleErr : Option BErr := none
    if staleErr.isSome then (some .orderCacheFailed, w)
    else (none, w)

/-- The deletion loop of deleteOrderListCache (order_service.go 105-110). -/
def deleteCacheKeys (w : World) : List String → Option BErr × World
  | [] => (none, w)
  | k :: ks =>
    let r := redisDelete w k
    if r.1 then deleteCacheKeys r.2 ks
    else (some .orderListCacheDeleteFailed, r.2)

/-- deleteOrderListCache (order_service.go 96-113): scan `order_list:*`,
delete every match. -/
def deleteOrderListCache (w : World) : Option BErr × World :=
  if w.faults.scanFails then (some .redisScanKeysFailed, w)
  else deleteCacheKeys w (storeKeysMatching w.cache)

/-- GetOrderByOrderNumber (order_service.go 161-198): cache-aside read with
the empty-string tombstone short-circuit and negative caching of repository
record-not-found. -/
def GetOrderByOrderNumber (w : World) (orderNumber : String) :
    (Option Order × Option BErr) × World :=
  let cacheKey := getOrderCacheKey orderNumber
  match redisGet w cacheKey with
  | some (.jsonOf o) => ((some o, none), w)
  | some .tomb => ((none, none), w)
  | none =>
    let r := repoGetOrderByOrderNumber w orderNumber
    match r.1 with
    | .error .notFound =>
      ((none, some .emptyCache), (redisSetWithExpire r.2 cacheKey .tomb orderTTL).2)
    | .error .failure => ((none, some .orderFailed), r.2)
    | .ok o =>
      let s := saveOrderInCache r.2 o orderTTL
      match s.1 with
      | some _ => ((none, some .orderCacheFailed), s.2)
      | none => ((some o, none), s.2)

/-- dto.CreateOrderRequest (part_002). -/
structure CreateOrderRequest where
  userId : Nat
  username : String
  totalPrice : Int
  description : String
deriving DecidableEq

/-- dto.UpdateOrderRequest (part_002). -/
structure UpdateOrderRequest where
  username : String
  orderNumber : String
  totalPrice : Int
  description : String
  status : Int
deriving DecidableEq

/-- The conditional field updates shared by the two update paths
(order_service.go 209-217 and 293-301). -/
def applyOrderUpdates (o : Order) (req : UpdateOrderRequest) : Order :=
  let o := if req.totalPrice ≠ 0 then { o with totalPrice := req.totalPrice } else o
  let o := if req.description ≠ "" then { o with description := req.description } else o
  if req.status ≠ 0 then { o with status := req.status } else o

/-- The identical tails of CreateOrder and UpdateOrderByOrderNumber
(order_service.go 141-158 and 224-237): cache the just-written order under
the 30-minute TTL, then invalidate the whole list cache, then return the
order; each failure aborts with its error. -/
def saveThenInvalidateList (w : World) (o : Order) :
    (Option Order × Option BErr) × World :=
  let s := saveOrderInCache w o orderTTL
  match s.1 with
  | some _ => ((none, some .orderCacheFailed), s.2)
  | none =>
    let d := deleteOrderListCache s.2
    match d.1 with
    | some _ => ((none, some .orderListCacheDeleteFailed), d.2)
    | none => ((some o, none), d.2)

/-- CreateOrder (order_service.go 115-159).  `gen` is the order number
produced by utils.GenerateOrderNumberWithPrefix("EC"), passed in as an
oracle for the nondeterministic generator. -/
def CreateOrder (w : World) (gen : String) (req : CreateOrderRequest) :
    (Option Order × Option BErr) × World :=
  let g := GetOrderByOrderNumber w gen
  if g.1.2 = none ∧ g.1.1.isSome then ((none, some .orderExists), g.2)
  else
    let o : Order :=
      { id := 0, orderNumber := gen, username := req.username,
        userId := req.userId, totalPrice := req.totalPrice,
        description := req.description, status := 1 }
    let c := repoCreate g.2 o
    match c.1 with
    | .error _ => ((none, some .orderCreateFailed), c.2)
    | .ok o2 => saveThenInvalidateList c.2 o2

/-- UpdateOrderByOrderNumber (order_service.go 200-238). -/
def UpdateOrderByOrderNumber (w : World) (req : UpdateOrderRequest) :
    (Option Order × Option BErr) × World :=
  let g := GetOrderByOrderNumber w req.orderNumber
  match g.1.2, g.1.1 with
  | none, some o =>
    let o2 := applyOrderUpdates o req
    let u := repoUpdate g.2 o2
    match u.1 with
    | some _ => ((none, some .orderUpdateFailed), u.2)
    | none => saveThenInvalidateList u.2 o2
  | _, _ => ((none, some .orderNotFound), g.2)

/-- DeleteOrderByOrderNumber (order_service.go 240-266): note that the
single-order cache delete and the list-cache invalidation both precede the
relational delete. -/
def DeleteOrderByOrderNumber (w : World) (orderNumber : String) :
    Option BErr × World :=
  let g := GetOrderByOrderNumber w orderNumber
  match g.1.2, g.1.1 with
  | none, some o =>
    let r := redisDelete g.2 (getOrderCacheKey orderNumber)
    if r.1 then
      let d := deleteOrderListCache r.2
      match d.1 with
      | some _ => (some .orderListCacheDeleteFailed, d.2)
      | none =>
        let x := repoDelete d.2 o.id
        match x.1 with
        | some _ => (some .orderDeleteFailed, x.2)
        | none => (none, x.2)
    else (some .orderCacheDeleteFailed, r.2)
  | _, _ => (some .orderNotFound, g.2)

/-- UpdateOrder by id (order_service.go 281-310): a pure repository
call-through that performs no cache operation at all. -/
def UpdateOrder (w : World) (id : Nat) (req : UpdateOrderRequest) :
    (Option Order × Option BErr) × World :=
  let r := repoGetByID w id
  match r.1 with
  | .error .notFound => ((none, some .orderNotFound), r.2)
  | .error .failure => ((none, some .orderFailed), r.2)
  | .ok o =>
    let o2 := applyOrderUpdates o req
    let u := repoUpdate r.2 o2
    match u.1 with
    | some _ => ((none, some .orderUpdateFailed), u.2)
    | none => ((some o2, none), u.2)

/-- DeleteOrder by id (order_service.go 312-319): no cache operation. -/
def DeleteOrder (w : World) (id : Nat) : Option BErr × World :=
  let x := repoDelete w id
  match x.1 with
  | some _ => (some .orderDeleteFailed, x.2)
  | none => (none, x.2)

/-- ListOrders (order_service.go 321-368): the lookup key is computed from
the raw page and pageSize before normalization; on a miss, pagination is
normalized, the repository is queried with offset (page-1)*pageSize and
limit pageSize, and the result is cached under the normalized key.  The
cache-hit ParseInt/Unmarshal error branches cannot fire in the model since
the stored fields round-trip. -/
def ListOrders (w : World) (username : String) (page pageSize : Int) :
    (Option (List Order × Int) × Option BErr) × World :=
  let cacheKey := getOrderListCacheKey username page pageSize
  match redisHashPair w cacheKey with
  | some (orders, total) => ((some (orders, total), none), w)
  | none =>
    let page := if page ≤ 0 then 1 else page
    let pageSize := if pageSize ≤ 0 then 10 else pageSize
    let pageSize := if pageSize > 100 then 100 else pageSize
    let offset := (page - 1) * pageSize
    let r := repoList w username offset pageSize
    match r.1 with
    | .error _ => ((none, some .orderListFailed), r.2)
    | .ok (orders, total) =>
      let s := saveOrderListInCache r.2 orders total username page pageSize orderTTL
      match s.1 with
      | some _ => ((none, some .orderCacheFailed), s.2)
      | none => ((some (orders, total), none), s.2)

theorem storeGet_storeSet_self (st : List (String × RVal)) (k : String) (v : RVal) :
    storeGet (storeSet st k v) k = some v := by
  induction st with
  | nil => simp [storeSet, storeGet]
  | cons e st ih =>
    by_cases h : e.1 = k
    · simp [storeSet, storeGet, h]
    · simp [storeSet, storeGet, h, ih]

theorem storeGet_storeSet_other (st : List (String × RVal)) (k k2 : String)
    (v : RVal) (h : k2 ≠ k) :
    storeGet (storeSet st k v) k2 = storeGet st k2 := by
  have hne : ¬ k = k2 := fun hh => h hh.symm
  induction st with
  | nil => simp only [storeSet, storeGet, if_neg hne]
  | cons e st ih =>
    by_cases he : e.1 = k
    · have he2 : ¬ e.1 = k2 := by rw [he]; exact hne
      simp only [storeSet, if_pos he, storeGet, if_neg hne, if_neg he2]
    · simp only [storeSet, if_neg he, storeGet]
      split
      · rfl
      · exact ih

theorem storeGet_storeDel_self (st : List (String × RVal)) (k : String) :
    storeGet (storeDel st k) k = none := by
  induction st with
  | nil => rfl
  | cons e st ih =>
    by_cases h : e.1 = k
    · simp [storeDel, h, ih]
    · simp [storeDel, storeGet, h, ih]

theorem storeGet_storeDel_none (st : List (String × RVal)) (k k2 : String)
    (h : storeGet st k2 = none) : storeGet (storeDel st k) k2 = none := by
  induction st with
  | nil => rfl
  | cons e st ih =>
    simp only [storeGet] at h
    by_cases he2 : e.1 = k2
    · rw [if_pos he2] at h
      exact absurd h (by simp)
    · rw [if_neg he2] at h
      by_cases he : e.1 = k
      · simp [storeDel, he, ih h]
      · simp [storeDel, storeGet, he, he2, ih h]

theorem storeGet_foldl_del_none (L : List String) :
    ∀ (st : List (String × RVal)) (k : String), storeGet st k = none →
      storeGet (L.foldl storeDel st) k = none := by
  induction L with
  | nil => intro st k h; exact h
  | cons x L ih =>
    intro st k h
    exact ih (storeDel st x) k (storeGet_storeDel_none st x k h)

theorem storeGet_foldl_del_mem (L : List String) :
    ∀ (st : List (String × RVal)) (k : String), k ∈ L →
      storeGet (L.foldl storeDel st) k = none := by
  induction L with
  | nil => intro st k h; cases h
  | cons x L ih =>
    intro st k h
    rcases List.mem_cons.1 h with h | h
    · subst h
      exact storeGet_foldl_del_none L (storeDel st k) k (storeGet_storeDel_self st k)
    · exact ih (storeDel st x) k h

theorem mem_storeKeysMatching (st : List (String × RVal)) (k : String)
    (hm : matchesOrderListPattern k = true) (h : storeGet st k ≠ none) :
    k ∈ storeKeysMatching st := by
  induction st with
  | nil => exact absurd rfl h
  | cons e st ih =>
    simp only [storeGet] at h
    by_cases he : e.1 = k
    · subst he
      simp [storeKeysMatching, hm]
    · rw [if_neg he] at h
      simp only [storeKeysMatching]
      split
      · exact List.mem_cons_of_mem _ (ih h)
      · exact ih h

theorem deleteCacheKeys_ok (L : List String) :
    ∀ (w : World), w.faults.kvDeleteFails = false →
      deleteCacheKeys w L = (none, { w with cache := L.foldl storeDel w.cache }) := by
  induction L with
  | nil => intro w _; rfl
  | cons x L ih =>
    intro w h
    simp only [deleteCacheKeys, redisDelete, h, Bool.false_eq_true, if_false,
      if_true, List.foldl]
    exact ih { w with cache := storeDel w.cache x } h

theorem deleteCacheKeys_success (L : List String) :
    ∀ (w : World), (deleteCacheKeys w L).1 = none →
      (deleteCacheKeys w L).2 = { w with cache := L.foldl storeDel w.cache } := by
  induction L with
  | nil => intro w _; rfl
  | cons x L ih =>
    intro w h
    cases hf : w.faults.kvDeleteFails with
    | false => rw [deleteCacheKeys_ok (x :: L) w hf]
    | true => simp [deleteCacheKeys, redisDelete, hf] at h

/-- deleteOrderListCache, when it succeeds, leaves no key matching
`order_list:*` in the keyspace and changes nothing else. -/
theorem deleteOrderListCache_success (w : World)
    (h : (deleteOrderListCache w).1 = none) :
    (deleteOrderListCache w).2 =
        { w with cache := (storeKeysMatching w.cache).foldl storeDel w.cache } ∧
      ∀ k, matchesOrderListPattern k = true →
        storeGet (deleteOrderListCache w).2.cache k = none := by
  cases hs : w.faults.scanFails with
  | false =>
    simp only [deleteOrderListCache, hs, Bool.false_eq_true, if_false] at h ⊢
    refine ⟨deleteCacheKeys_success _ w h, ?_⟩
    intro k hk
    rw [deleteCacheKeys_success _ w h]
    rcases hsome : storeGet w.cache k with _ | v
    · exact storeGet_foldl_del_none _ w.cache k hsome
    · exact storeGet_foldl_del_mem _ w.cache k
        (mem_storeKeysMatching w.cache k hk (by rw [hsome]; simp))
  | true => simp [deleteOrderListCache, hs] at h

/-- No injected faults: every collaborator call succeeds. -/
def noFaults : Faults :=
  { createFails := false, updateFails := false, deleteFails := false,
    getFails := false, listFails := false, kvSetFails := false,
    kvDeleteFails := false, hashSetFails := false, scanFails := false,
    marshalFails := false }

/-- A quiescent world: empty table, empty cache, no faults. -/
def wEmpty : World :=
  { db := { orders := [], nextId := 1 }, cache := [], faults := noFaults,
    repoGetCount := 0, repoListCalls := [] }

/-- A sample stored order used by the concrete instantiations. -/
def oEC1 : Order :=
  { id := 1, orderNumber := "EC1", username := "alice", userId := 7,
    totalPrice := 100, description := "d", status := 1 }

/-- C3: for an order number absent from both cache and store, the first
GetOrderByOrderNumber queries the repository once, writes the empty
tombstone under the standard 30-minute TTL and reports not-found (no order,
ErrEmptyCache); the second call hits the tombstone branch, reports
not-found (no order) and performs no repository query, leaving the world
untouched. -/
theorem negative_cache_two_reads (w : World) (n : String)
    (hmiss : storeGet w.cache (getOrderCacheKey n) = none)
    (habsent : findOrder w.db.orders n = none)
    (hset : w.faults.kvSetFails = false)
    (hget : w.faults.getFails = false) :
    (GetOrderByOrderNumber w n).1.1 = none ∧
      (GetOrderByOrderNumber w n).1.2 = some .emptyCache ∧
      storeGet (GetOrderByOrderNumber w n).2.cache (getOrderCacheKey n) =
        some (.str .tomb orderTTL) ∧
      (GetOrderByOrderNumber w n).2.repoGetCount = w.repoGetCount + 1 ∧
      GetOrderByOrderNumber (GetOrderByOrderNumber w n).2 n =
        ((none, none), (GetOrderByOrderNumber w n).2) := by
  have h1 : GetOrderByOrderNumber w n =
      ((none, some .emptyCache),
        { w with
          cache := storeSet w.cache (getOrderCacheKey n) (.str .tomb orderTTL),
          repoGetCount := w.repoGetCount + 1 }) := by
    simp [GetOrderByOrderNumber, redisGet, hmiss, repoGetOrderByOrderNumber,
      hget, habsent, redisSetWithExpire, hset]
  rw [h1]
  refine ⟨rfl, rfl, storeGet_storeSet_self _ _ _, rfl, ?_⟩
  simp [GetOrderByOrderNumber, redisGet, storeGet_storeSet_self]

/-- C3 witness: never-created order number "EC2" in the quiescent world. -/
theorem negative_cache_two_reads_witness :
    (GetOrderByOrderNumber wEmpty "EC2").1.1 = none ∧
      (GetOrderByOrderNumber wEmpty "EC2").1.2 = some .emptyCache ∧
      storeGet (GetOrderByOrderNumber wEmpty "EC2").2.cache
          (getOrderCacheKey "EC2") = some (.str .tomb orderTTL) ∧
      (GetOrderByOrderNumber wEmpty "EC2").2.repoGetCount =
        wEmpty.repoGetCount + 1 ∧
      GetOrderByOrderNumber (GetOrderByOrderNumber wEmpty "EC2").2 "EC2" =
        ((none, none), (GetOrderByOrderNumber wEmpty "EC2").2) :=
  negative_cache_two_reads wEmpty "EC2" rfl rfl rfl rfl

/-- World for the delete counterexample and witness: order EC1 in the table,
its cache entry and one cached list page present, relational delete failing. -/
def wDeleteFail : World :=
  { db := { orders := [oEC1], nextId := 2 },
    cache := [("order:EC1", .str (.jsonOf oEC1) orderTTL),
              ("order_list:alice:1:10", .hash [oEC1] 1 orderTTL)],
    faults := { noFaults with deleteFails := true },
    repoGetCount := 0, repoListCalls := [] }

/-- C1 counterexample: with the relational delete failing,
DeleteOrderByOrderNumber nevertheless removes both the single-order entry
and the cached list page (they are deleted before the relational write), so
"if the relational write fails, the cache state is left unchanged" is false
at this input. -/
theorem delete_cache_touched_before_failed_write_cex :
    (DeleteOrderByOrderNumber wDeleteFail "EC1").1 = some .orderDeleteFailed ∧
      (DeleteOrderByOrderNumber wDeleteFail "EC1").2.db = wDeleteFail.db ∧
      ¬ (DeleteOrderByOrderNumber wDeleteFail "EC1").2.cache =
          wDeleteFail.cache := by
  decide

theorem findOrder_orderNumber :
    ∀ (os : List Order) (n : String) (o : Order),
      findOrder os n = some o → o.orderNumber = n := by
  intro os
  induction os with
  | nil => intro n o h; cases h
  | cons x xs ih =>
    intro n o h
    simp only [findOrder] at h
    split at h
    · rename_i he
      injection h with hxo
      rw [← hxo]
      exact he
    · exact ih n o h

theorem repoGet_world (w : World) (n : String) :
    (repoGetOrderByOrderNumber w n).2 =
      { w with repoGetCount := w.repoGetCount + 1 } := by
  cases hgf : w.faults.getFails with
  | true => simp [repoGetOrderByOrderNumber, hgf]
  | false =>
    cases hf : findOrder w.db.orders n with
    | some o => simp [repoGetOrderByOrderNumber, hgf, hf]
    | none => simp [repoGetOrderByOrderNumber, hgf, hf]

theorem repoGet_ok (w : World) (n : String) (o : Order)
    (h : (repoGetOrderByOrderNumber w n).1 = Except.ok o) :
    findOrder w.db.orders n = some o := by
  cases hgf : w.faults.getFails with
  | true => simp [repoGetOrderByOrderNumber, hgf] at h
  | false =>
    cases hf : findOrder w.db.orders n with
    | some o2 =>
      simp [repoGetOrderByOrderNumber, hgf, hf] at h
      rw [h]
    | none => simp [repoGetOrderByOrderNumber, hgf, hf] at h

theorem redisSetWithExpire_spec (w : World) (key : String) (v : CacheStr)
    (t : Nat) :
    (redisSetWithExpire w key v t).2.db = w.db ∧
      ∀ k, k ≠ key →
        storeGet (redisSetWithExpire w key v t).2.cache k =
          storeGet w.cache k := by
  cases hks : w.faults.kvSetFails with
  | true => simp [redisSetWithExpire, hks]
  | false =>
    constructor
    · simp [redisSetWithExpire, hks]
    · intro k hk
      simp [redisSetWithExpire, hks, storeGet_storeSet_other _ _ _ _ hk]

theorem saveOrderInCache_spec (w : World) (o : Order) (t : Nat) :
    (saveOrderInCache w o t).2.db = w.db ∧
      ∀ k, k ≠ getOrderCacheKey o.orderNumber →
        storeGet (saveOrderInCache w o t).2.cache k = storeGet w.cache k := by
  cases hmf : w.faults.marshalFails with
  | true => simp [saveOrderInCache, hmf]
  | false =>
    have hs := redisSetWithExpire_spec w (getOrderCacheKey o.orderNumber)
      (.jsonOf o) t
    constructor
    · simp only [saveOrderInCache, hmf, Bool.false_eq_true, if_false]
      split <;> exact hs.1
    · intro k hk
      simp only [saveOrderInCache, hmf, Bool.false_eq_true, if_false]
      split <;> exact hs.2 k hk

/-- The embedded read of the three number-based mutations never changes the
database and can change the cache only at the key `order:{n}` it is reading
(the tombstone write on a repository miss, or the repopulation on a cache
miss). -/
theorem getOrder_spec (w : World) (n : String) :
    (GetOrderByOrderNumber w n).2.db = w.db ∧
      ∀ k, k ≠ getOrderCacheKey n →
        storeGet (GetOrderByOrderNumber w n).2.cache k =
          storeGet w.cache k := by
  cases hg : redisGet w (getOrderCacheKey n) with
  | some cs =>
    cases cs with
    | tomb => simp [GetOrderByOrderNumber, hg]
    | jsonOf o => simp [GetOrderByOrderNumber, hg]
  | none =>
    have hw := repoGet_world w n
    cases hr : (repoGetOrderByOrderNumber w n).1 with
    | error e =>
      cases e with
      | notFound =>
        simp only [GetOrderByOrderNumber, hg, hr]
        have hs := redisSetWithExpire_spec (repoGetOrderByOrderNumber w n).2
          (getOrderCacheKey n) .tomb orderTTL
        constructor
        · rw [hs.1, hw]
        · intro k hk
          rw [hs.2 k hk, hw]
      | failure =>
        simp only [GetOrderByOrderNumber, hg, hr]
        constructor
        · rw [hw]
        · intro k hk
          rw [hw]
    | ok o =>
      simp only [GetOrderByOrderNumber, hg, hr]
      have hkey : getOrderCacheKey o.orderNumber = getOrderCacheKey n := by
        rw [findOrder_orderNumber w.db.orders n o (repoGet_ok w n o hr)]
      have hs := saveOrderInCache_spec (repoGetOrderByOrderNumber w n).2 o
        orderTTL
      cases hsv : (saveOrderInCache (repoGetOrderByOrderNumber w n).2 o
          orderTTL).1 with
      | some e =>
        simp only [hsv]
        constructor
        · rw [hs.1, hw]
        · intro k hk
          have hk2 : k ≠ getOrderCacheKey o.orderNumber := by
            rw [hkey]
            exact hk
          rw [hs.2 k hk2, hw]
      | none =>
        simp only [hsv]
        constructor
        · rw [hs.1, hw]
        · intro k hk
          have hk2 : k ≠ getOrderCacheKey o.orderNumber := by
            rw [hkey]
            exact hk
          rw [hs.2 k hk2, hw]

theorem repoCreate_error (w : World) (o : Order) (e : RepoErr)
    (h : (repoCreate w o).1 = Except.error e) : (repoCreate w o).2 = w := by
  cases hcf : w.faults.createFails with
  | true => simp [repoCreate, hcf]
  | false => simp [repoCreate, hcf] at h

theorem repoUpdate_error (w : World) (o : Order) (e : RepoErr)
    (h : (repoUpdate w o).1 = some e) : (repoUpdate w o).2 = w := by
  cases huf : w.faults.updateFails with
  | true => simp [repoUpdate, huf]
  | false => simp [repoUpdate, huf] at h

theorem repoDelete_error (w : World) (i : Nat) (e : RepoErr)
    (h : (repoDelete w i).1 = some e) : (repoDelete w i).2 = w := by
  cases hdf : w.faults.deleteFails with
  | true => simp [repoDelete, hdf]
  | false => simp [repoDelete, hdf] at h

theorem redisDelete_true (w : World) (k : String)
    (h : (redisDelete w k).1 = true) :
    (redisDelete w k).2 = { w with cache := storeDel w.cache k } := by
  cases hkd : w.faults.kvDeleteFails with
  | true => simp [redisDelete, hkd] at h
  | false => simp [redisDelete, hkd]

theorem saveThenInvalidateList_err (w : World) (o : Order) :
    (saveThenInvalidateList w o).1.2 = none ∨
      (saveThenInvalidateList w o).1.2 = some .orderCacheFailed ∨
      (saveThenInvalidateList w o).1.2 =
        some .orderListCacheDeleteFailed := by
  unfold saveThenInvalidateList
  cases hs : (saveOrderInCache w o orderTTL).1 with
  | some e => right; left; simp [hs]
  | none =>
    simp only [hs]
    cases hd : (deleteOrderListCache (saveOrderInCache w o orderTTL).2).1 with
    | some e => right; right; simp [hd]
    | none => left; simp [hd]

/-- C1 corrected: when CreateOrder's relational insert fails, the database
is unchanged and the only cache entry that may have changed is
`order:{generated}` (the tombstone its duplicate-check read can write);
when UpdateOrderByOrderNumber's relational update fails, the database is
unchanged and the only cache entry that may have changed is
`order:{orderNumber}` (repopulated by the embedded read on a cache miss);
DeleteOrderByOrderNumber, however, deletes the single-order entry and
invalidates every `order_list:*` entry before the relational delete, so
when the relational delete fails the database row survives while those
cache entries are already gone. -/
theorem mutation_write_then_cache (w : World) :
    (∀ gen req, (CreateOrder w gen req).1.2 = some .orderCreateFailed →
      (CreateOrder w gen req).2.db = w.db ∧
        ∀ k, k ≠ getOrderCacheKey gen →
          storeGet (CreateOrder w gen req).2.cache k = storeGet w.cache k) ∧
    (∀ req, (UpdateOrderByOrderNumber w req).1.2 = some .orderUpdateFailed →
      (UpdateOrderByOrderNumber w req).2.db = w.db ∧
        ∀ k, k ≠ getOrderCacheKey req.orderNumber →
          storeGet (UpdateOrderByOrderNumber w req).2.cache k =
            storeGet w.cache k) ∧
    (∀ n, (DeleteOrderByOrderNumber w n).1 = some .orderDeleteFailed →
      (DeleteOrderByOrderNumber w n).2.db = w.db ∧
        storeGet (DeleteOrderByOrderNumber w n).2.cache (getOrderCacheKey n) =
          none ∧
        ∀ k, matchesOrderListPattern k = true →
          storeGet (DeleteOrderByOrderNumber w n).2.cache k = none) := by
  refine ⟨?_, ?_, ?_⟩
  · intro gen req h
    have hg := getOrder_spec w gen
    simp only [CreateOrder] at h ⊢
    by_cases hcond : (GetOrderByOrderNumber w gen).1.2 = none ∧
        (GetOrderByOrderNumber w gen).1.1.isSome = true
    · rw [if_pos hcond] at h
      simp at h
    · rw [if_neg hcond] at h ⊢
      cases hc : (repoCreate (GetOrderByOrderNumber w gen).2
          { id := 0, orderNumber := gen, username := req.username,
            userId := req.userId, totalPrice := req.totalPrice,
            description := req.description, status := 1 }).1 with
      | ok o2 =>
        simp only [hc] at h
        rcases saveThenInvalidateList_err _ o2 with he | he | he <;>
          rw [he] at h <;> simp at h
      | error e =>
        simp only [hc]
        rw [repoCreate_error _ _ _ hc]
        exact ⟨hg.1, fun k hk => hg.2 k hk⟩
  · intro req h
    have hg := getOrder_spec w req.orderNumber
    simp only [UpdateOrderByOrderNumber] at h ⊢
    cases hge : (GetOrderByOrderNumber w req.orderNumber).1.2 with
    | some e => simp [hge] at h
    | none =>
      cases hgo : (GetOrderByOrderNumber w req.orderNumber).1.1 with
      | none => simp [hge, hgo] at h
      | some o =>
        simp only [hge, hgo] at h ⊢
        cases hu : (repoUpdate (GetOrderByOrderNumber w req.orderNumber).2
            (applyOrderUpdates o req)).1 with
        | none =>
          simp only [hu] at h
          rcases saveThenInvalidateList_err _ (applyOrderUpdates o req) with
            he | he | he <;> rw [he] at h <;> simp at h
        | some e =>
          simp only [hu]
          rw [repoUpdate_error _ _ _ hu]
          exact ⟨hg.1, fun k hk => hg.2 k hk⟩
  · intro n h
    have hg := getOrder_spec w n
    simp only [DeleteOrderByOrderNumber] at h ⊢
    cases hge : (GetOrderByOrderNumber w n).1.2 with
    | some e => simp [hge] at h
    | none =>
      cases hgo : (GetOrderByOrderNumber w n).1.1 with
      | none => simp [hge, hgo] at h
      | some o =>
        simp only [hge, hgo] at h ⊢
        cases hr : (redisDelete (GetOrderByOrderNumber w n).2
            (getOrderCacheKey n)).1 with
        | false => simp [hr] at h
        | true =>
          simp only [hr, if_true] at h ⊢
          cases hd : (deleteOrderListCache
              (redisDelete (GetOrderByOrderNumber w n).2
                (getOrderCacheKey n)).2).1 with
          | some e => simp [hd] at h
          | none =>
            simp only [hd] at h ⊢
            cases hx : (repoDelete (deleteOrderListCache
                (redisDelete (GetOrderByOrderNumber w n).2
                  (getOrderCacheKey n)).2).2 o.id).1 with
            | none => simp [hx] at h
            | some e =>
              simp only [hx]
              rw [repoDelete_error _ _ _ hx]
              have hds := deleteOrderListCache_success _ hd
              refine ⟨?_, ?_, ?_⟩
              · rw [hds.1, redisDelete_true _ _ hr]
                exact hg.1
              · rw [hds.1, redisDelete_true _ _ hr]
                exact storeGet_foldl_del_none _ _ _
                  (storeGet_storeDel_self _ _)
              · intro k hk
                exact hds.2 k hk

/-- World with one cached list page, order EC1 in the table but not in the
cache (so the update read misses and repopulates), and a failing relational
update. -/
def wUpdateFail : World :=
  { db := { orders := [oEC1], nextId := 2 },
    cache := [("order_list:alice:1:10", .hash [oEC1] 1 orderTTL)],
    faults := { noFaults with updateFails := true },
    repoGetCount := 0, repoListCalls := [] }

/-- World with one cached list page, an empty table and a failing
relational insert. -/
def wCreateFail : World :=
  { db := { orders := [], nextId := 1 },
    cache := [("order_list:alice:1:10", .hash [oEC1] 1 orderTTL)],
    faults := { noFaults with createFails := true },
    repoGetCount := 0, repoListCalls := [] }

def reqCreate : CreateOrderRequest :=
  { userId := 7, username := "alice", totalPrice := 3, description := "x" }

def reqUpdate : UpdateOrderRequest :=
  { username := "alice", orderNumber := "EC1", totalPrice := 5,
    description := "", status := 0 }

/-- C1 witness: the three amended conclusions at concrete worlds; the
update world exercises the cache-miss read path, and in each case the
cached list page survives the failed write untouched while delete has
already removed it. -/
theorem mutation_write_then_cache_witness :
    ((CreateOrder wCreateFail "EC9" reqCreate).2.db = wCreateFail.db ∧
      storeGet (CreateOrder wCreateFail "EC9" reqCreate).2.cache
          "order_list:alice:1:10" =
        storeGet wCreateFail.cache "order_list:alice:1:10") ∧
    ((UpdateOrderByOrderNumber wUpdateFail reqUpdate).2.db = wUpdateFail.db ∧
      storeGet (UpdateOrderByOrderNumber wUpdateFail reqUpdate).2.cache
          "order_list:alice:1:10" =
        storeGet wUpdateFail.cache "order_list:alice:1:10") ∧
    ((DeleteOrderByOrderNumber wDeleteFail "EC1").2.db = wDeleteFail.db ∧
      storeGet (DeleteOrderByOrderNumber wDeleteFail "EC1").2.cache
        (getOrderCacheKey "EC1") = none ∧
      storeGet (DeleteOrderByOrderNumber wDeleteFail "EC1").2.cache
        "order_list:alice:1:10" = none) :=
  ⟨⟨((mutation_write_then_cache wCreateFail).1 "EC9" reqCreate (by decide)).1,
      ((mutation_write_then_cache wCreateFail).1 "EC9" reqCreate
          (by decide)).2 "order_list:alice:1:10" (by decide)⟩,
    ⟨((mutation_write_then_cache wUpdateFail).2.1 reqUpdate (by decide)).1,
      ((mutation_write_then_cache wUpdateFail).2.1 reqUpdate (by decide)).2
        "order_list:alice:1:10" (by decide)⟩,
    ⟨((mutation_write_then_cache wDeleteFail).2.2 "EC1" (by decide)).1,
      ((mutation_write_then_cache wDeleteFail).2.2 "EC1" (by decide)).2.1,
      ((mutation_write_then_cache wDeleteFail).2.2 "EC1"
          (by decide)).2.2 "order_list:alice:1:10" (by decide)⟩⟩

theorem repoDelete_cache (w : World) (i : Nat) :
    (repoDelete w i).2.cache = w.cache := by
  unfold repoDelete
  split <;> rfl

theorem saveThenInvalidateList_success_clears (w : World) (o : Order)
    (h : (saveThenInvalidateList w o).1.2 = none) :
    ∀ k, matchesOrderListPattern k = true →
      storeGet (saveThenInvalidateList w o).2.cache k = none := by
  unfold saveThenInvalidateList at h ⊢
  cases hs : (saveOrderInCache w o orderTTL).1 with
  | some e => simp [hs] at h
  | none =>
    simp only [hs] at h ⊢
    cases hd : (deleteOrderListCache (saveOrderInCache w o orderTTL).2).1 with
    | some e => simp [hd] at h
    | none =>
      simp only [hd]
      intro k hk
      exact (deleteOrderListCache_success _ hd).2 k hk

/-- World with one cached list page and order EC1 in the table, no faults. -/
def wListCached : World :=
  { db := { orders := [oEC1], nextId := 2 },
    cache := [("order_list:alice:1:10", .hash [oEC1] 1 orderTTL)],
    faults := noFaults, repoGetCount := 0, repoListCalls := [] }

/-- C2 counterexample: the ID-based UpdateOrder of the service completes
successfully yet performs no cache invalidation; the cached list page at
order_list:alice:1:10 survives the mutation, so "after any order
create/update/delete every order_list:* entry has been deleted" is false
at this input. -/
theorem update_by_id_keeps_list_cache_cex :
    (UpdateOrder wListCached 1 reqUpdate).1.2 = none ∧
      matchesOrderListPattern "order_list:alice:1:10" = true ∧
      storeGet (UpdateOrder wListCached 1 reqUpdate).2.cache
        "order_list:alice:1:10" = some (.hash [oEC1] 1 orderTTL) := by
  decide

/-- C2 corrected: after CreateOrder, UpdateOrderByOrderNumber or
DeleteOrderByOrderNumber completes successfully, every key matching
`order_list:*` has been deleted, so a subsequent ListOrders lookup for any
username, page and pageSize misses; the ID-based UpdateOrder and
DeleteOrder, however, perform no list-cache invalidation at all. -/
theorem mutations_clear_list_cache (w : World) :
    (∀ gen req, (CreateOrder w gen req).1.2 = none →
      ∀ k, matchesOrderListPattern k = true →
        storeGet (CreateOrder w gen req).2.cache k = none) ∧
    (∀ req, (UpdateOrderByOrderNumber w req).1.2 = none →
      ∀ k, matchesOrderListPattern k = true →
        storeGet (UpdateOrderByOrderNumber w req).2.cache k = none) ∧
    (∀ n, (DeleteOrderByOrderNumber w n).1 = none →
      ∀ k, matchesOrderListPattern k = true →
        storeGet (DeleteOrderByOrderNumber w n).2.cache k = none) := by
  refine ⟨?_, ?_, ?_⟩
  · intro gen req h k hk
    simp only [CreateOrder] at h ⊢
    by_cases hcond : (GetOrderByOrderNumber w gen).1.2 = none ∧
        (GetOrderByOrderNumber w gen).1.1.isSome = true
    · rw [if_pos hcond] at h
      simp at h
    · rw [if_neg hcond] at h ⊢
      cases hc : (repoCreate (GetOrderByOrderNumber w gen).2
          { id := 0, orderNumber := gen, username := req.username,
            userId := req.userId, totalPrice := req.totalPrice,
            description := req.description, status := 1 }).1 with
      | error e => simp [hc] at h
      | ok o2 =>
        simp only [hc] at h ⊢
        exact saveThenInvalidateList_success_clears _ _ h k hk
  · intro req h k hk
    simp only [UpdateOrderByOrderNumber] at h ⊢
    cases hge : (GetOrderByOrderNumber w req.orderNumber).1.2 with
    | some e => simp [hge] at h
    | none =>
      cases hgo : (GetOrderByOrderNumber w req.orderNumber).1.1 with
      | none => simp [hge, hgo] at h
      | some o =>
        simp only [hge, hgo] at h ⊢
        cases hu : (repoUpdate (GetOrderByOrderNumber w req.orderNumber).2
            (applyOrderUpdates o req)).1 with
        | some e => simp [hu] at h
        | none =>
          simp only [hu] at h ⊢
          exact saveThenInvalidateList_success_clears _ _ h k hk
  · intro n h k hk
    simp only [DeleteOrderByOrderNumber] at h ⊢
    cases hge : (GetOrderByOrderNumber w n).1.2 with
    | some e => simp [hge] at h
    | none =>
      cases hgo : (GetOrderByOrderNumber w n).1.1 with
      | none => simp [hge, hgo] at h
      | some o =>
        simp only [hge, hgo] at h ⊢
        cases hr : (redisDelete (GetOrderByOrderNumber w n).2
            (getOrderCacheKey n)).1 with
        | false => simp [hr] at h
        | true =>
          simp only [hr, if_true] at h ⊢
          cases hd : (deleteOrderListCache
              (redisDelete (GetOrderByOrderNumber w n).2
                (getOrderCacheKey n)).2).1 with
          | some e => simp [hd] at h
          | none =>
            simp only [hd] at h ⊢
            cases hx : (repoDelete (deleteOrderListCache
                (redisDelete (GetOrderByOrderNumber w n).2
                  (getOrderCacheKey n)).2).2 o.id).1 with
            | some e => simp [hx] at h
            | none =>
              simp only [hx]
              rw [repoDelete_cache]
              exact (deleteOrderListCache_success _ hd).2 k hk

/-- C2 witness: a successful DeleteOrderByOrderNumber in a world holding a
cached list page leaves no order_list:* key behind. -/
theorem mutations_clear_list_cache_witness :
    storeGet (DeleteOrderByOrderNumber wListCached "EC1").2.cache
      "order_list:alice:1:10" = none :=
  (mutations_clear_list_cache wListCached).2.2 "EC1" (by decide)
    "order_list:alice:1:10" (by decide)

/-- C8: on a ListOrders cache miss, pagination is normalized — page ≤ 0
becomes 1, pageSize ≤ 0 becomes 10, pageSize > 100 is capped at 100 — and
the repository is queried exactly once with offset (page-1)*pageSize and
limit pageSize computed from the normalized values. -/
theorem listOrders_normalizes_pagination (w : World) (u : String) (p ps : Int)
    (hmiss : redisHashPair w (getOrderListCacheKey u p ps) = none) :
    (ListOrders w u p ps).2.repoListCalls =
      w.repoListCalls ++
        [(u,
          ((if p ≤ 0 then 1 else p) - 1) *
            (if (if ps ≤ 0 then 10 else ps) > 100 then 100
              else if ps ≤ 0 then 10 else ps),
          (if (if ps ≤ 0 then 10 else ps) > 100 then 100
            else if ps ≤ 0 then 10 else ps))] := by
  simp only [ListOrders, hmiss]
  cases hlf : w.faults.listFails with
  | true => simp [repoList, hlf]
  | false =>
    cases hmf : w.faults.marshalFails with
    | true => simp [repoList, hlf, saveOrderListInCache, hmf]
    | false =>
      cases hhs : w.faults.hashSetFails with
      | true =>
        simp [repoList, hlf, saveOrderListInCache, hmf, redisHashSet, hhs]
      | false =>
        simp [repoList, hlf, saveOrderListInCache, hmf, redisHashSet, hhs]

/-- C8 witness: raw arguments page 0, pageSize 200 are normalized to page 1,
pageSize 100, and the repository sees offset 0, limit 100. -/
theorem listOrders_normalizes_pagination_witness :
    (ListOrders wEmpty "alice" 0 200).2.repoListCalls =
      wEmpty.repoListCalls ++
        [("alice",
          ((if (0 : Int) ≤ 0 then 1 else 0) - 1) *
            (if (if (200 : Int) ≤ 0 then 10 else 200) > 100 then 100
              else if (200 : Int) ≤ 0 then 10 else 200),
          (if (if (200 : Int) ≤ 0 then 10 else 200) > 100 then 100
            else if (200 : Int) ≤ 0 then 10 else 200))] :=
  listOrders_normalizes_pagination wEmpty "alice" 0 200 (by decide)

theorem digitChar_ne (k : Nat) :
    Nat.digitChar k ≠ ':' ∧ Nat.digitChar k ≠ '-' := by
  rcases Nat.lt_or_ge k 16 with h | h
  · interval_cases k <;> exact ⟨by decide, by decide⟩
  · have h0 : Nat.digitChar k = '*' := by
      have hks : k ≠ 0 ∧ k ≠ 1 ∧ k ≠ 2 ∧ k ≠ 3 ∧ k ≠ 4 ∧ k ≠ 5 ∧ k ≠ 6 ∧
          k ≠ 7 ∧ k ≠ 8 ∧ k ≠ 9 ∧ k ≠ 10 ∧ k ≠ 11 ∧ k ≠ 12 ∧ k ≠ 13 ∧
          k ≠ 14 ∧ k ≠ 15 := by omega
      obtain ⟨e0, e1, e2, e3, e4, e5, e6, e7, e8, e9, ea, eb, ec, ed, ee, ef⟩ :=
        hks
      simp [Nat.digitChar, e0, e1, e2, e3, e4, e5, e6, e7, e8, e9, ea, eb, ec,
        ed, ee, ef]
    rw [h0]
    exact ⟨by decide, by decide⟩

/-- Numeric value of a decimal digit character; inverse of `Nat.digitChar`
on 0-9. -/
def charDigit (c : Char) : Nat :=
  if c = '0' then 0 else if c = '1' then 1 else if c = '2' then 2
  else if c = '3' then 3 else if c = '4' then 4 else if c = '5' then 5
  else if c = '6' then 6 else if c = '7' then 7 else if c = '8' then 8
  else if c = '9' then 9 else 0

theorem charDigit_digitChar (d : Nat) (h : d < 10) :
    charDigit (Nat.digitChar d) = d := by
  interval_cases d <;> decide

/-- Value of a little-endian decimal digit string. -/
def digitsVal : List Char → Nat
  | [] => 0
  | c :: cs => charDigit c + 10 * digitsVal cs

theorem digitsVal_natDigitsAux :
    ∀ (fuel n : Nat), n < fuel → digitsVal (natDigitsAux fuel n) = n := by
  intro fuel
  induction fuel with
  | zero => intro n h; omega
  | succ f ih =>
    intro n h
    by_cases h10 : n < 10
    · simp [natDigitsAux, h10, digitsVal, charDigit_digitChar n h10]
    · have hd : n / 10 < f := by
        have := Nat.div_lt_self (by omega : 0 < n) (by omega : 1 < 10)
        omega
      simp only [natDigitsAux, if_neg h10, digitsVal, ih (n / 10) hd,
        charDigit_digitChar (n % 10) (Nat.mod_lt n (by omega))]
      omega

theorem natDigits_inj (m n : Nat) (h : natDigits m = natDigits n) : m = n := by
  have hm := digitsVal_natDigitsAux (m + 1) m (by omega)
  have hn := digitsVal_natDigitsAux (n + 1) n (by omega)
  unfold natDigits at h
  rw [← hm, ← hn, h]

theorem natDigitsAux_chars :
    ∀ (fuel n : Nat) (c : Char), c ∈ natDigitsAux fuel n →
      c ≠ ':' ∧ c ≠ '-' := by
  intro fuel
  induction fuel with
  | zero => intro n c hc; cases hc
  | succ f ih =>
    intro n c hc
    by_cases h10 : n < 10
    · simp only [natDigitsAux, if_pos h10, List.mem_singleton] at hc
      rw [hc]
      exact digitChar_ne n
    · simp only [natDigitsAux, if_neg h10, List.mem_cons] at hc
      rcases hc with hc | hc
      · rw [hc]; exact digitChar_ne (n % 10)
      · exact ih (n / 10) c hc

theorem natDigits_ne_nil (n : Nat) : natDigits n ≠ [] := by
  unfold natDigits natDigitsAux
  split <;> simp

theorem strDataInj (s t : String) (h : s.data = t.data) : s = t := by
  cases s
  cases t
  exact congrArg String.mk h

theorem formatNat_inj (m n : Nat) (h : formatNat m = formatNat n) : m = n := by
  unfold formatNat at h
  have hdata : (natDigits m).reverse = (natDigits n).reverse :=
    congrArg String.data h
  exact natDigits_inj m n (List.reverse_injective hdata)

theorem formatNat_chars (n : Nat) (c : Char) (hc : c ∈ (formatNat n).data) :
    c ≠ ':' ∧ c ≠ '-' := by
  have hc2 : c ∈ (natDigits n).reverse := hc
  exact natDigitsAux_chars (n + 1) n c (List.mem_reverse.1 hc2)

theorem formatNat_ne_nil (n : Nat) : (formatNat n).data ≠ [] := by
  intro h
  have h2 : (natDigits n).reverse = [] := h
  exact natDigits_ne_nil n (by simpa using congrArg List.reverse h2)

theorem formatInt_chars (i : Int) (c : Char) (hc : c ∈ (formatInt i).data) :
    c ≠ ':' := by
  unfold formatInt at hc
  split at hc
  · rw [String.data_append] at hc
    rcases List.mem_append.1 hc with hc | hc
    · simp only [List.mem_singleton] at hc
      rw [hc]
      decide
    · exact (formatNat_chars _ c hc).1
  · exact (formatNat_chars _ c hc).1

theorem formatInt_inj (a b : Int) (h : formatInt a = formatInt b) : a = b := by
  have hmixed : ∀ (x y : Int), x < 0 → ¬ y < 0 →
      "-" ++ formatNat x.natAbs ≠ formatNat y.toNat := by
    intro x y _ _ hcontra
    have hdata := congrArg String.data hcontra
    rw [String.data_append] at hdata
    rcases hfn : (formatNat y.toNat).data with _ | ⟨c, cs⟩
    · exact formatNat_ne_nil _ hfn
    · rw [hfn] at hdata
      have hc : c ∈ (formatNat y.toNat).data := by
        rw [hfn]
        exact List.mem_cons_self c cs
      have hne := (formatNat_chars _ c hc).2
      have hminus : ("-" : String).data = ['-'] := rfl
      rw [hminus, List.singleton_append] at hdata
      injection hdata with h1 h2
      exact hne h1.symm
  unfold formatInt at h
  by_cases ha : a < 0 <;> by_cases hb : b < 0
  · rw [if_pos ha, if_pos hb] at h
    have hdata := congrArg String.data h
    rw [String.data_append, String.data_append] at hdata
    have hcl := List.append_cancel_left hdata
    have habs := formatNat_inj _ _ (strDataInj _ _ hcl)
    omega
  · rw [if_pos ha, if_neg hb] at h
    exact absurd h (hmixed a b ha hb)
  · rw [if_neg ha, if_pos hb] at h
    exact absurd h.symm (hmixed b a hb ha)
  · rw [if_neg ha, if_neg hb] at h
    have htn := formatNat_inj _ _ h
    omega

theorem sep_split :
    ∀ (l1 l2 r1 r2 : List Char), ':' ∉ l1 → ':' ∉ l2 →
      l1 ++ ':' :: r1 = l2 ++ ':' :: r2 → l1 = l2 ∧ r1 = r2 := by
  intro l1
  induction l1 with
  | nil =>
    intro l2 r1 r2 _ h2 heq
    cases l2 with
    | nil => simpa using heq
    | cons b bs =>
      simp only [List.nil_append, List.cons_append] at heq
      injection heq with hb _
      exact absurd (hb ▸ List.mem_cons_self b bs) h2
  | cons a as ih =>
    intro l2 r1 r2 h1 h2 heq
    cases l2 with
    | nil =>
      simp only [List.nil_append, List.cons_append] at heq
      injection heq with hb _
      exact absurd (hb ▸ List.mem_cons_self a as) h1
    | cons b bs =>
      simp only [List.cons_append] at heq
      injection heq with hab htail
      have h1t : ':' ∉ as := fun hm => h1 (List.mem_cons_of_mem a hm)
      have h2t : ':' ∉ bs := fun hm => h2 (List.mem_cons_of_mem b hm)
      have := ih bs r1 r2 h1t h2t htail
      exact ⟨by rw [hab, this.1], this.2⟩

theorem getOrderListCacheKey_inj (u : String) (p ps q qs : Int)
    (h : getOrderListCacheKey u p ps = getOrderListCacheKey u q qs) :
    p = q ∧ ps = qs := by
  unfold getOrderListCacheKey at h
  have hdata := congrArg String.data h
  simp only [String.data_append, List.append_assoc] at hdata
  have h1 := List.append_cancel_left hdata
  have h2 := List.append_cancel_left h1
  have h3 := List.append_cancel_left h2
  rw [List.singleton_append, List.singleton_append] at h3
  have hsplit := sep_split _ _ _ _
    (fun hc => formatInt_chars p ':' hc rfl)
    (fun hc => formatInt_chars q ':' hc rfl) h3
  exact ⟨formatInt_inj p q (strDataInj _ _ hsplit.1),
    formatInt_inj ps qs (strDataInj _ _ hsplit.2)⟩

theorem listOrders_miss_spec (w : World) (u : String) (p ps : Int)
    (hmiss : redisHashPair w (getOrderListCacheKey u p ps) = none) :
    (ListOrders w u p ps).2.repoListCalls =
      w.repoListCalls ++
        [(u,
          ((if p ≤ 0 then 1 else p) - 1) *
            (if (if ps ≤ 0 then 10 else ps) > 100 then 100
              else if ps ≤ 0 then 10 else ps),
          (if (if ps ≤ 0 then 10 else ps) > 100 then 100
            else if ps ≤ 0 then 10 else ps))] ∧
    ∀ k, k ≠ getOrderListCacheKey u (if p ≤ 0 then 1 else p)
        (if (if ps ≤ 0 then 10 else ps) > 100 then 100
          else if ps ≤ 0 then 10 else ps) →
      storeGet (ListOrders w u p ps).2.cache k = storeGet w.cache k := by
  simp only [ListOrders, hmiss]
  cases hlf : w.faults.listFails with
  | true =>
    constructor
    · simp [repoList, hlf]
    · intro k _
      simp [repoList, hlf]
  | false =>
    cases hmf : w.faults.marshalFails with
    | true =>
      constructor
      · simp [repoList, hlf, saveOrderListInCache, hmf]
      · intro k _
        simp [repoList, hlf, saveOrderListInCache, hmf]
    | false =>
      cases hhs : w.faults.hashSetFails with
      | true =>
        constructor
        · simp [repoList, hlf, saveOrderListInCache, hmf, redisHashSet, hhs]
        · intro k _
          simp [repoList, hlf, saveOrderListInCache, hmf, redisHashSet, hhs]
      | false =>
        constructor
        · simp [repoList, hlf, saveOrderListInCache, hmf, redisHashSet, hhs]
        · intro k hk
          simp [repoList, hlf, saveOrderListInCache, hmf, redisHashSet, hhs,
            storeGet_storeSet_other _ _ _ _ hk]

/-- C9: when the ListOrders arguments need normalization (page ≤ 0,
pageSize ≤ 0 or pageSize > 100), the cache lookup key — computed from the
raw page and pageSize before normalization — differs from the key the
result is stored under (the normalized values), so two identical such calls
both miss the cache and both query the backing store. -/
theorem listOrders_lookup_store_key_mismatch (w : World) (u : String)
    (p ps : Int) (hnorm : p ≤ 0 ∨ ps ≤ 0 ∨ ps > 100)
    (hmiss : redisHashPair w (getOrderListCacheKey u p ps) = none) :
    getOrderListCacheKey u p ps ≠
      getOrderListCacheKey u (if p ≤ 0 then 1 else p)
        (if (if ps ≤ 0 then 10 else ps) > 100 then 100
          else if ps ≤ 0 then 10 else ps) ∧
      (ListOrders (ListOrders w u p ps).2 u p ps).2.repoListCalls.length =
        w.repoListCalls.length + 2 := by
  have hne : getOrderListCacheKey u p ps ≠
      getOrderListCacheKey u (if p ≤ 0 then 1 else p)
        (if (if ps ≤ 0 then 10 else ps) > 100 then 100
          else if ps ≤ 0 then 10 else ps) := by
    intro hcontra
    have hinj := getOrderListCacheKey_inj u p ps _ _ hcontra
    rcases hnorm with hn | hn | hn
    · have h1 := hinj.1
      rw [if_pos hn] at h1
      omega
    · have h2 := hinj.2
      simp only [if_pos hn] at h2
      norm_num at h2
      omega
    · have h2 := hinj.2
      simp only [if_neg (by omega : ¬ ps ≤ 0)] at h2
      rw [if_pos hn] at h2
      omega
  have h1 := listOrders_miss_spec w u p ps hmiss
  have hmiss2 : redisHashPair (ListOrders w u p ps).2
      (getOrderListCacheKey u p ps) = none := by
    unfold redisHashPair
    rw [h1.2 _ hne]
    unfold redisHashPair at hmiss
    exact hmiss
  have h2 := listOrders_miss_spec (ListOrders w u p ps).2 u p ps hmiss2
  refine ⟨hne, ?_⟩
  rw [h2.1, h1.1]
  simp

/-- C9 witness: two identical calls with raw page 0 (normalized to 1): the
lookup key order_list:alice:0:10 differs from the store key
order_list:alice:1:10, and the repository is queried twice. -/
theorem listOrders_lookup_store_key_mismatch_witness :
    getOrderListCacheKey "alice" 0 10 ≠
      getOrderListCacheKey "alice" (if (0 : Int) ≤ 0 then 1 else 0)
        (if (if (10 : Int) ≤ 0 then 10 else 10) > 100 then 100
          else if (10 : Int) ≤ 0 then 10 else 10) ∧
      (ListOrders (ListOrders wEmpty "alice" 0 10).2 "alice"
          0 10).2.repoListCalls.length =
        wEmpty.repoListCalls.length + 2 :=
  listOrders_lookup_store_key_mismatch wEmpty "alice" 0 10
    (Or.inl (by decide)) (by decide)

theorem repoList_faults (w : World) (u : String) (off lim : Int) :
    (repoList w u off lim).2.faults = w.faults := by
  cases hlf : w.faults.listFails with
  | true => simp [repoList, hlf]
  | false => simp [repoList, hlf]

/-- C10: saveOrderListInCache can only return the marshal-failure error:
the HashSet return value is discarded and the subsequent error check
re-tests the stale marshal error (necessarily nil at that point), so a
list-cache write failure is silently ignored — with marshalling fine and
HashSet failing, the function reports success leaving the world unchanged,
and ListOrders on a cache miss still returns the repository page
successfully. -/
theorem saveOrderListInCache_ignores_write_failure (w : World) :
    (∀ orders total u p ps ttl,
      (saveOrderListInCache w orders total u p ps ttl).1 = none ∨
        (saveOrderListInCache w orders total u p ps ttl).1 =
          some .orderMarshalFailed) ∧
    (∀ orders total u p ps ttl, w.faults.marshalFails = false →
      w.faults.hashSetFails = true →
      saveOrderListInCache w orders total u p ps ttl = (none, w)) ∧
    (∀ u p ps page total, w.faults.marshalFails = false →
      w.faults.hashSetFails = true →
      redisHashPair w (getOrderListCacheKey u p ps) = none →
      (repoList w u
          (((if p ≤ 0 then 1 else p) - 1) *
            (if (if ps ≤ 0 then 10 else ps) > 100 then 100
              else if ps ≤ 0 then 10 else ps))
          (if (if ps ≤ 0 then 10 else ps) > 100 then 100
            else if ps ≤ 0 then 10 else ps)).1 = Except.ok (page, total) →
      (ListOrders w u p ps).1 = (some (page, total), none)) := by
  refine ⟨?_, ?_, ?_⟩
  · intro orders total u p ps ttl
    cases hmf : w.faults.marshalFails with
    | true => right; simp [saveOrderListInCache, hmf]
    | false => left; simp [saveOrderListInCache, hmf]
  · intro orders total u p ps ttl hmf hhs
    simp [saveOrderListInCache, hmf, redisHashSet, hhs]
  · intro u p ps page total hmf hhs hmiss hrepo
    simp only [ListOrders, hmiss, hrepo]
    simp only [saveOrderListInCache, repoList_faults, hmf, hhs, redisHashSet]
    simp

/-- World with one order row and a failing list-cache HashSet write. -/
def wHashSetFail : World :=
  { db := { orders := [oEC1], nextId := 2 }, cache := [],
    faults := { noFaults with hashSetFails := true },
    repoGetCount := 0, repoListCalls := [] }

/-- C10 witness: with the list-cache write failing, ListOrders still
returns the one-row repository page with a success result. -/
theorem saveOrderListInCache_ignores_write_failure_witness :
    (saveOrderListInCache wHashSetFail [oEC1] 1 "alice" 1 10 orderTTL).1 =
        none ∧
      saveOrderListInCache wHashSetFail [oEC1] 1 "alice" 1 10 orderTTL =
        (none, wHashSetFail) ∧
      (ListOrders wHashSetFail "alice" 1 10).1 = (some ([oEC1], 1), none) :=
  ⟨Or.resolve_right
      ((saveOrderListInCache_ignores_write_failure wHashSetFail).1 [oEC1] 1
        "alice" 1 10 orderTTL) (by decide),
    (saveOrderListInCache_ignores_write_failure wHashSetFail).2.1 [oEC1] 1
      "alice" 1 10 orderTTL rfl rfl,
    (saveOrderListInCache_ignores_write_failure wHashSetFail).2.2 "alice" 1 10
      [oEC1] 1 rfl rfl (by decide) rfl⟩
